import Mathlib

/-!
Shallow embedding of src/stacks.c (Parrot dynamic stack module).

The stack is a linked list of chunks, one entry per chunk, terminated by a
self-linked sentinel chunk.  We model a stack as the Lean list of its
non-sentinel entries, top first; the sentinel is the end of the list.
Machine integers (INTVAL) are modelled as Int, sizes (size_t) as Nat;
no claim here depends on overflow.  Pointers to PMC and String objects are
modelled as Option Nat identities (none = NULL); FLOATVAL payloads are
modelled as opaque bit patterns (no arithmetic is performed on them in this
module).  The fatal error sink internal_exception never returns; operations
that can raise return an Except whose error carries the stack state at the
moment the exception was raised, so that atomicity claims are expressible.
-/

namespace ParrotStacks

/-- The Stack_entry_type enumeration from include/parrot/stacks.h; the value
0 (NO_STACK_ENTRY_TYPE, the wildcard) is represented as `none` at the call
sites that accept it. -/
inductive Stack_entry_type where
  | entryInt
  | entryFloat
  | entryString
  | entryPMC
  | entryPointer
  | entryDestination
  | entryAction
  | entryMark
deriving DecidableEq, Repr

/-- The UnionVal payload union of an entry.  Each constructor is one union
member: int_val, num_val, pmc_val, string_val, struct_val. -/
inductive UVal where
  | uint (i : Int)
  | unum (bits : Int)
  | upmc (p : Option Nat)
  | ustr (p : Option Nat)
  | uptr (p : Option Nat)
deriving DecidableEq, Repr

/-- Reading (or writing) the union member selected by a Stack_entry_type,
as done by the UVal_int / UVal_num / UVal_pmc / UVal_str / UVal_ptr accesses
in stack_push and stack_pop.  `none` means the access reads a member other
than the one last stored (a type-confused union read, whose value the C
source leaves unspecified); on the matching member the value is returned
unchanged. -/
def memberOf : Stack_entry_type → UVal → Option UVal
  | .entryInt, .uint i => some (.uint i)
  | .entryMark, .uint i => some (.uint i)
  | .entryFloat, .unum b => some (.unum b)
  | .entryPMC, .upmc p => some (.upmc p)
  | .entryAction, .upmc p => some (.upmc p)
  | .entryString, .ustr p => some (.ustr p)
  | .entryPointer, .uptr p => some (.uptr p)
  | .entryDestination, .uptr p => some (.uptr p)
  | _, _ => none

/-- One Stack_Entry_t: a type tag, the payload union, and the cleanup
function pointer (function identities are modelled as Nat; `none` is
STACK_CLEANUP_NULL). -/
structure Stack_Entry where
  entry_type : Stack_entry_type
  entry : UVal
  cleanup : Option Nat
deriving DecidableEq, Repr

/-- A junk entry standing for the content of memory the C source never
validly reads (used only as the default of getD reads that are dead under
the preconditions established by the source). -/
def defaultEntry : Stack_Entry := ⟨.entryInt, .uint 0, none⟩

instance : Inhabited Stack_Entry := ⟨defaultEntry⟩

/-- An entry whose union holds the member selected by its own tag, as every
entry produced by stack_push does. -/
def EntryWF (e : Stack_Entry) : Prop := (memberOf e.entry_type e.entry).isSome = true

instance (e : Stack_Entry) : Decidable (EntryWF e) := by
  unfold EntryWF; infer_instance

/-- The interpreter context, reduced to the one field this module reads:
CONTEXT(interp->ctx)->user_stack, consulted by stack_entry for negative
depths. -/
structure Interp where
  user_stack : List Stack_Entry

/-- stack_height: counts chunks from the top until the self-link is
reached (the sentinel is the end of the list). -/
def stack_height : List Stack_Entry → Nat
  | [] => 0
  | _ :: rest => stack_height rest + 1

/-- The chunk walk of stack_entry: step down `offset` chunks, stopping
early at the self-linked sentinel; afterwards, if the walk stands on the
sentinel the entry is not found. -/
def stack_walk : List Stack_Entry → Nat → Option Stack_Entry
  | [], _ => none
  | e :: _, 0 => some e
  | _ :: rest, k + 1 => stack_walk rest k

/-- stack_entry: for depth ≥ 0, walk `depth` chunks down from the top of
the argument stack.  For depth < 0, the depth is first reinterpreted as
stack_height(CONTEXT(interp->ctx)->user_stack) + depth — note: the height
of the interpreter user stack, not of the argument stack — and rejected if
still negative. -/
def stack_entry (interp : Interp) (stack : List Stack_Entry) (depth : Int) :
    Option Stack_Entry :=
  if depth < 0 then
    let depth' : Int := (stack_height interp.user_stack : Int) + depth
    if depth' < 0 then none
    else stack_walk stack depth'.toNat
  else stack_walk stack depth.toNat

/-- The error kinds this module can raise through internal_exception. -/
inductive Err where
  | shallowStack
  | badStackType
deriving DecidableEq, Repr

/-- The bubble-up loop of rotate_entries: `for (i = 0; i < depth; i++)
s[i] = s[i+1]`, run as `k` iterations starting at index `i`.  Reads and
writes go through stack_entry at nonnegative depths, which resolve to plain
list indices (stack_entry_ofNat); the write through the returned pointer is
List.set.  The getD default is dead: under the height check every index
read is in range. -/
def rotUpLoop (s : List Stack_Entry) (i : Nat) : Nat → List Stack_Entry
  | 0 => s
  | k + 1 => rotUpLoop (s.set i (s.getD (i + 1) defaultEntry)) (i + 1) k

/-- The bubble-down loop of rotate_entries: `for (i = depth; i > 0; i--)
s[i] = s[i-1]`, run from index `i` down to 1. -/
def rotDownLoop (s : List Stack_Entry) : Nat → List Stack_Entry
  | 0 => s
  | j + 1 => rotDownLoop (s.set (j + 1) (s.getD j defaultEntry)) j

/-- rotate_entries: no-op for −1 ≤ n ≤ 1; otherwise checks the height
against |n| and raises ERROR_STACK_SHALLOW before touching any entry
(the Except error carries the stack contents at the moment the exception
is raised).  For n < 0 the entry at depth |n|−1 is saved, entries 0..|n|−2
shift down one place and the saved entry lands at depth 0; for n > 0 the
top entry is saved, entries 1..n−1 shift up one place and the saved entry
lands at depth n−1.  The temp reads are the `*stack_entry(...)`
dereferences of the source; under the height check they are never NULL, so
the getD default is dead.  The interp argument is threaded only because
stack_entry takes it; all depths used here are nonnegative. -/
def rotate_entries (interp : Interp) (s : List Stack_Entry) (num_entries : Int) :
    Except (Err × List Stack_Entry) (List Stack_Entry) :=
  if -1 ≤ num_entries ∧ num_entries ≤ 1 then
    .ok s
  else if num_entries < 0 then
    if stack_height s < (-num_entries).toNat then
      .error (.shallowStack, s)
    else
      .ok ((rotDownLoop s ((-num_entries).toNat - 1)).set 0
        ((stack_entry interp s (((-num_entries).toNat - 1 : Nat) : Int)).getD
          defaultEntry))
  else
    if stack_height s < num_entries.toNat then
      .error (.shallowStack, s)
    else
      .ok ((rotUpLoop s 0 (num_entries.toNat - 1)).set (num_entries.toNat - 1)
        ((stack_entry interp s 0).getD defaultEntry))

/-- Modelled from the spec: stack_prepare_pop lives in src/stack_common.c,
which is not part of this tree; per the external-interface contract,
prepareForPop yields the detached top Entry with the list already advanced
to the next chunk.  Popping an empty stack is outside the modelled
behavior (none). -/
def stack_prepare_pop : List Stack_Entry → Option (Stack_Entry × List Stack_Entry)
  | [] => none
  | e :: rest => some (e, rest)

/-- The outcome of stack_pop.  cleanupsRun lists the cleanup invocations
performed, in order, each with the detached entry it was passed.  In the
error case the stack field holds the stack state at the moment
internal_exception was raised.  In the ok case, returned = none models
`where == NULL` (the C function returns NULL and discards the value);
returned = some r models the copy into *where, r being the union member
selected by the requested type (inner none only for a type-confused union
read, which the source leaves unspecified). -/
inductive PopOutcome where
  | err (kind : Err) (stackAtFailure : List Stack_Entry)
      (cleanupsRun : List (Nat × Stack_Entry))
  | ok (stackAfter : List Stack_Entry) (cleanupsRun : List (Nat × Stack_Entry))
      (returned : Option (Option UVal))
deriving DecidableEq, Repr

/-- stack_pop: detach the top entry FIRST (stack_prepare_pop advances the
list), then check the requested type (0 = wildcard `none` means no check),
then run the cleanup exactly once passing it the detached entry, then
return NULL if where is absent, and otherwise copy the union member
selected by the requested type into where — the wildcard hits the switch
default and raises ERROR_BAD_STACK_TYPE (after the cleanup already ran). -/
def stack_pop (s : List Stack_Entry) (destPresent : Bool)
    (type : Option Stack_entry_type) : Option PopOutcome :=
  match stack_prepare_pop s with
  | none => none
  | some (entry, rest) =>
    match type with
    | some t =>
      if t ≠ entry.entry_type then
        some (.err .badStackType rest [])
      else
        let cl : List (Nat × Stack_Entry) :=
          match entry.cleanup with
          | some c => [(c, entry)]
          | none => []
        if destPresent then
          some (.ok rest cl (some (memberOf t entry.entry)))
        else
          some (.ok rest cl none)
    | none =>
      let cl : List (Nat × Stack_Entry) :=
        match entry.cleanup with
        | some c => [(c, entry)]
        | none => []
      if destPresent then
        some (.err .badStackType rest cl)
      else
        some (.ok rest cl none)

/-- stack_push: stack_prepare_push (src/stack_common.c, modelled from the
spec: it yields a writable entry slot on a fresh top chunk, i.e. the list
grows by one) is followed by storing the tag, the cleanup and the union
member selected by the tag.  `thing` is what the void pointer argument
points to; a mismatch between tag and pointee (a type-confused store) is
outside the modelled behavior (none).  An unrecognized tag value raises
ERROR_BAD_STACK_TYPE in the source; the tag argument here ranges over the
recognized enumeration, so that branch is unreachable. -/
def stack_push (s : List Stack_Entry) (thing : UVal) (type : Stack_entry_type)
    (cleanup : Option Nat) : Option (List Stack_Entry) :=
  match memberOf type thing with
  | some v => some (⟨type, v, cleanup⟩ :: s)
  | none => none

/-- One report to the tracer: either a chunk (identified by its depth from
the top; the sentinel has depth = height) reported live, or a PMC/String
object reported live. -/
inductive MarkEvent where
  | chunkLive (pos : Nat)
  | objLive (p : Nat)
deriving DecidableEq, Repr

/-- The switch of mark_stack over one entry: the object reference it
reports, i.e. the payload when the tag is STACK_ENTRY_PMC or
STACK_ENTRY_STRING (none then means the NULL check failed), and nothing
for every other tag (the default branch). -/
def entryRef (e : Stack_Entry) : Option Nat :=
  match e.entry_type, e.entry with
  | .entryPMC, .upmc p => p
  | .entryString, .ustr p => p
  | _, _ => none

/-- mark_stack: from each chunk, report the chunk itself live
(pobject_lives), stop if it is the self-linked sentinel, otherwise report
the entry payload live when the tag is STACK_ENTRY_PMC or
STACK_ENTRY_STRING and the pointer is non-NULL (entryRef), then continue
downward.  `pos` is the depth of the current chunk, used as its identity;
the sentinel of a stack of height h has depth h. -/
def mark_stack : List Stack_Entry → Nat → List MarkEvent
  | [], pos => [.chunkLive pos]
  | e :: rest, pos =>
    .chunkLive pos ::
      ((match entryRef e with
        | some p => [MarkEvent.objLive p]
        | none => []) ++ mark_stack rest (pos + 1))

/-- The list a successful rotate_entries call leaves behind (junk [] when
the call raised instead). -/
def rotResult (interp : Interp) (s : List Stack_Entry) (n : Int) :
    List Stack_Entry :=
  ((rotate_entries interp s n).toOption).getD []

/-- The cleanup invocations an outcome of stack_pop performed. -/
def PopOutcome.cleanups : PopOutcome → List (Nat × Stack_Entry)
  | .err _ _ cl => cl
  | .ok _ cl _ => cl

/-- The cleanup invocations a stack_pop call performs (none when the call
is outside the modelled behavior). -/
def popCleanups (s : List Stack_Entry) (destPresent : Bool)
    (type : Option Stack_entry_type) : List (Nat × Stack_Entry) :=
  match stack_pop s destPresent type with
  | some out => out.cleanups
  | none => []

/-- The error a stack_pop call raises, if any. -/
def popErrKind (out : Option PopOutcome) : Option Err :=
  match out with
  | some (.err k _ _) => some k
  | _ => none

/-- Concrete entries for the scenario conjuncts and witnesses. -/
def exInt (i : Int) : Stack_Entry := ⟨.entryInt, .uint i, none⟩

def ex321 : List Stack_Entry := [exInt 3, exInt 2, exInt 1]

def ex213 : List Stack_Entry := [exInt 2, exInt 1, exInt 3]

def exInterp : Interp := ⟨[]⟩

def exFloat : Stack_Entry := ⟨.entryFloat, .unum 0, none⟩

def exMarkStack : List Stack_Entry :=
  [⟨.entryPMC, .upmc (some 11), none⟩, ⟨.entryString, .ustr none, none⟩]

/-! Basic lemmas tying the traversal primitives to list indexing. -/

theorem stack_height_eq_length (s : List Stack_Entry) : stack_height s = s.length := by
  induction s with
  | nil => rfl
  | cons e rest ih => simp [stack_height, ih]

theorem stack_walk_eq_getElem? (s : List Stack_Entry) (k : Nat) :
    stack_walk s k = s[k]? := by
  induction s generalizing k with
  | nil => simp [stack_walk]
  | cons e rest ih =>
    cases k with
    | zero => simp [stack_walk]
    | succ j => simp [stack_walk, ih]

theorem stack_entry_ofNat (interp : Interp) (s : List Stack_Entry) (k : Nat) :
    stack_entry interp s (k : Int) = s[k]? := by
  simp [stack_entry, stack_walk_eq_getElem?]

/-! Helper lemmas: closed forms for the rotation loops. -/

theorem rotUpLoop_length (k i : Nat) (s : List Stack_Entry) :
    (rotUpLoop s i k).length = s.length := by
  induction k generalizing i s with
  | zero => rfl
  | succ k ih => rw [rotUpLoop, ih]; simp

theorem rotDownLoop_length (i : Nat) (s : List Stack_Entry) :
    (rotDownLoop s i).length = s.length := by
  induction i generalizing s with
  | zero => rfl
  | succ m ih => rw [rotDownLoop, ih]; simp

theorem rotUpLoop_getElem? (k i : Nat) (s : List Stack_Entry)
    (h : i + k < s.length) (j : Nat) :
    (rotUpLoop s i k)[j]? = if i ≤ j ∧ j < i + k then s[j + 1]? else s[j]? := by
  induction k generalizing i s with
  | zero =>
    rw [rotUpLoop, if_neg (by omega)]
  | succ k ih =>
    rw [rotUpLoop]
    have hset : (s.set i (s.getD (i + 1) defaultEntry)).length = s.length := by simp
    rw [ih (i + 1) _ (by omega)]
    have hi1 : i + 1 < s.length := by omega
    have hgd : s.getD (i + 1) defaultEntry = s[i + 1] := List.getD_eq_getElem s _ hi1
    by_cases h1 : i + 1 ≤ j ∧ j < i + 1 + k
    · rw [if_pos h1, if_pos (by omega)]
      exact List.getElem?_set_ne (by omega)
    · rw [if_neg h1]
      by_cases h2 : j = i
      · subst h2
        rw [if_pos (by omega)]
        rw [List.getElem?_set_self' ]
        rw [hgd, List.getElem?_eq_getElem (by omega : j < s.length),
          List.getElem?_eq_getElem hi1]
        rfl
      · rw [if_neg (by omega), List.getElem?_set_ne (by omega)]

theorem rotDownLoop_getElem? (i : Nat) (s : List Stack_Entry)
    (h : i < s.length) (j : Nat) :
    (rotDownLoop s i)[j]? = if 1 ≤ j ∧ j ≤ i then s[j - 1]? else s[j]? := by
  induction i generalizing s with
  | zero =>
    rw [rotDownLoop, if_neg (by omega)]
  | succ m ih =>
    rw [rotDownLoop]
    have hset : (s.set (m + 1) (s.getD m defaultEntry)).length = s.length := by simp
    rw [ih _ (by omega)]
    have hgd : s.getD m defaultEntry = s[m] := List.getD_eq_getElem s _ (by omega)
    by_cases h1 : 1 ≤ j ∧ j ≤ m
    · rw [if_pos h1, if_pos (by omega)]
      exact List.getElem?_set_ne (by omega)
    · rw [if_neg h1]
      by_cases h2 : j = m + 1
      · rw [if_pos (by omega), h2]
        rw [List.getElem?_set_self' ]
        rw [hgd, List.getElem?_eq_getElem (by omega : m + 1 < s.length)]
        have hm : m + 1 - 1 = m := by omega
        rw [hm, List.getElem?_eq_getElem (by omega : m < s.length)]
        rfl
      · rw [if_neg (by omega), List.getElem?_set_ne (by omega)]

theorem rotate_pos_spec (interp : Interp) (s : List Stack_Entry) (n : Nat)
    (h2 : 2 ≤ n) (hle : n ≤ s.length) :
    ∃ t, rotate_entries interp s (n : Int) = .ok t ∧ t.length = s.length ∧
      ∀ j : Nat,
        t[j]? = if j + 1 < n then s[j + 1]?
                else if j + 1 = n then s[0]? else s[j]? := by
  have htn : ((n : Int)).toNat = n := by omega
  rw [rotate_entries, if_neg (by omega), if_neg (by omega), htn,
    stack_height_eq_length, if_neg (by omega)]
  refine ⟨_, rfl, ?_, ?_⟩
  · rw [List.length_set, rotUpLoop_length]
  · intro j
    have hup := rotUpLoop_getElem? (n - 1) 0 s (by omega)
    have h0 : stack_entry interp s 0 = s[0]? := by
      have := stack_entry_ofNat interp s 0
      simpa using this
    have hs0 : s[0]? = some s[0] := List.getElem?_eq_getElem (by omega)
    have hsn1 : s[n - 1]? = some s[n - 1] := List.getElem?_eq_getElem (by omega)
    by_cases hj : j = n - 1
    · rw [hj, List.getElem?_set_self' , hup (n - 1), if_neg (by omega),
        if_neg (by omega), if_pos (by omega : n - 1 + 1 = n), h0, hs0, hsn1]
      rfl
    · rw [List.getElem?_set_ne (by omega), hup j]
      by_cases hlt : j + 1 < n
      · rw [if_pos (by omega), if_pos hlt]
      · rw [if_neg (by omega), if_neg hlt, if_neg (by omega)]

theorem rotate_neg_spec (interp : Interp) (s : List Stack_Entry) (n : Nat)
    (h2 : 2 ≤ n) (hle : n ≤ s.length) :
    ∃ t, rotate_entries interp s (-(n : Int)) = .ok t ∧ t.length = s.length ∧
      ∀ j : Nat,
        t[j]? = if j = 0 then s[n - 1]?
                else if j < n then s[j - 1]? else s[j]? := by
  have htn : (-(-(n : Int))).toNat = n := by omega
  rw [rotate_entries, if_neg (by omega), if_pos (by omega), htn,
    stack_height_eq_length, if_neg (by omega)]
  refine ⟨_, rfl, ?_, ?_⟩
  · rw [List.length_set, rotDownLoop_length]
  · intro j
    have hdown := rotDownLoop_getElem? (n - 1) s (by omega)
    have hd : stack_entry interp s ((n - 1 : Nat) : Int) = s[n - 1]? :=
      stack_entry_ofNat interp s (n - 1)
    have hsn : s[n - 1]? = some s[n - 1] := List.getElem?_eq_getElem (by omega)
    have hs0 : s[0]? = some s[0] := List.getElem?_eq_getElem (by omega)
    by_cases hj : j = 0
    · rw [hj, List.getElem?_set_self' , hdown 0, if_neg (by omega), if_pos rfl,
        hd, hsn, hs0]
      rfl
    · rw [List.getElem?_set_ne (by omega), hdown j, if_neg hj]
      by_cases hlt : j < n
      · rw [if_pos (by omega), if_pos hlt]
      · rw [if_neg (by omega), if_neg hlt]

theorem rotResult_eq (interp : Interp) (s t : List Stack_Entry) (n : Int)
    (h : rotate_entries interp s n = .ok t) : rotResult interp s n = t := by
  rw [rotResult, h]
  rfl

/-- Claim C1: for every stack s and 2 ≤ n ≤ height(s), rotate_entries(s, n)
succeeds and leaves the entry originally at depth 0 at depth n−1, moves the
entry originally at depth i (1 ≤ i ≤ n−1) to depth i−1, and leaves depths
≥ n and the height unchanged; in particular [3,2,1] rotated by 3 becomes
[2,1,3]. -/
theorem claim_C1_rotate_bubble_up :
    (∀ (interp : Interp) (s : List Stack_Entry) (n : Nat),
      2 ≤ n → n ≤ stack_height s →
      rotate_entries interp s (n : Int) = .ok (rotResult interp s (n : Int)) ∧
      (rotResult interp s (n : Int))[n - 1]? = s[0]? ∧
      (∀ i : Nat, 1 ≤ i → i ≤ n - 1 →
        (rotResult interp s (n : Int))[i - 1]? = s[i]?) ∧
      (∀ i : Nat, n ≤ i → (rotResult interp s (n : Int))[i]? = s[i]?) ∧
      stack_height (rotResult interp s (n : Int)) = stack_height s) ∧
    rotate_entries exInterp ex321 3 = .ok ex213 := by
  constructor
  · intro interp s n h2 hle
    rw [stack_height_eq_length] at hle
    obtain ⟨t, hok, hlen, hget⟩ := rotate_pos_spec interp s n h2 hle
    rw [rotResult_eq interp s t _ hok]
    refine ⟨hok, ?_, ?_, ?_, ?_⟩
    · rw [hget (n - 1), if_neg (by omega), if_pos (by omega)]
    · intro i h1 hi
      rw [hget (i - 1), if_pos (by omega)]
      have : i - 1 + 1 = i := by omega
      rw [this]
    · intro i hi
      rw [hget i, if_neg (by omega), if_neg (by omega)]
    · rw [stack_height_eq_length, stack_height_eq_length, hlen]
  · rfl

/-- Witness for claim C1 at s = [3,2,1] (top..bottom), n = 3. -/
theorem claim_C1_witness :
    rotate_entries exInterp ex321 ((3 : Nat) : Int) =
      .ok (rotResult exInterp ex321 ((3 : Nat) : Int)) ∧
    (rotResult exInterp ex321 ((3 : Nat) : Int))[3 - 1]? = ex321[0]? ∧
    (∀ i : Nat, 1 ≤ i → i ≤ 3 - 1 →
      (rotResult exInterp ex321 ((3 : Nat) : Int))[i - 1]? = ex321[i]?) ∧
    (∀ i : Nat, 3 ≤ i →
      (rotResult exInterp ex321 ((3 : Nat) : Int))[i]? = ex321[i]?) ∧
    stack_height (rotResult exInterp ex321 ((3 : Nat) : Int)) =
      stack_height ex321 :=
  claim_C1_rotate_bubble_up.1 exInterp ex321 3 (by decide) (by decide)

/-- Claim C2: for 2 ≤ w ≤ height(s), rotate_entries(s, w) succeeds and an
immediately following rotate_entries(·, −w) restores exactly the original
stack. -/
theorem claim_C2_rotate_involution (interp : Interp) (s : List Stack_Entry)
    (w : Nat) (h2 : 2 ≤ w) (hle : w ≤ stack_height s) :
    rotate_entries interp s (w : Int) = .ok (rotResult interp s (w : Int)) ∧
    rotate_entries interp (rotResult interp s (w : Int)) (-(w : Int)) = .ok s := by
  rw [stack_height_eq_length] at hle
  obtain ⟨t, hok, hlen, hget⟩ := rotate_pos_spec interp s w h2 hle
  rw [rotResult_eq interp s t _ hok]
  refine ⟨hok, ?_⟩
  obtain ⟨r, hok2, hlen2, hget2⟩ := rotate_neg_spec interp t w h2 (by omega)
  rw [hok2]
  congr 1
  apply List.ext_getElem?
  intro j
  rw [hget2 j]
  by_cases hj : j = 0
  · rw [if_pos hj, hget (w - 1), if_neg (by omega), if_pos (by omega), hj]
  · rw [if_neg hj]
    by_cases hlt : j < w
    · rw [if_pos hlt, hget (j - 1), if_pos (by omega)]
      have : j - 1 + 1 = j := by omega
      rw [this]
    · rw [if_neg hlt, hget j, if_neg (by omega), if_neg (by omega)]

/-- Witness for claim C2 at s = [3,2,1], w = 3. -/
theorem claim_C2_witness :
    rotate_entries exInterp ex321 ((3 : Nat) : Int) =
      .ok (rotResult exInterp ex321 ((3 : Nat) : Int)) ∧
    rotate_entries exInterp (rotResult exInterp ex321 ((3 : Nat) : Int))
      (-((3 : Nat) : Int)) = .ok ex321 :=
  claim_C2_rotate_involution exInterp ex321 3 (by decide) (by decide)

/-- Claim C7: rotate_entries with |n| exceeding the height (and |n| ≥ 2)
raises ShallowStack, and rotate_entries with n ∈ {−1, 0, 1} is a no-op on
any stack contents. -/
theorem claim_C7_rotate_shallow_and_noop :
    (∀ (interp : Interp) (s : List Stack_Entry) (n : Int),
      2 ≤ n.natAbs → stack_height s < n.natAbs →
      rotate_entries interp s n = .error (.shallowStack, s)) ∧
    (∀ (interp : Interp) (s : List Stack_Entry) (n : Int),
      -1 ≤ n → n ≤ 1 → rotate_entries interp s n = .ok s) := by
  constructor
  · intro interp s n h2 hlt
    rw [rotate_entries, if_neg (by omega)]
    by_cases hn : n < 0
    · rw [if_pos hn]
      have he : (-n).toNat = n.natAbs := by omega
      rw [he, if_pos hlt]
    · rw [if_neg hn]
      have he : n.toNat = n.natAbs := by omega
      rw [he, if_pos hlt]
  · intro interp s n h1 h2
    rw [rotate_entries, if_pos ⟨h1, h2⟩]

/-- Witness for claim C7: height 3, n = 5 raises ShallowStack; n = 1 is a
no-op. -/
theorem claim_C7_witness :
    rotate_entries exInterp ex321 5 = .error (.shallowStack, ex321) ∧
    rotate_entries exInterp ex321 1 = .ok ex321 :=
  ⟨claim_C7_rotate_shallow_and_noop.1 exInterp ex321 5 (by decide) (by decide),
   claim_C7_rotate_shallow_and_noop.2 exInterp ex321 1 (by decide) (by decide)⟩

/-- Claim C9: every failing rotate_entries call fails with ShallowStack and
the stack state at the moment the exception is raised is exactly the
original stack — the check precedes every entry read and write, so a failed
rotation is atomic. -/
theorem claim_C9_rotate_error_atomic (interp : Interp) (s : List Stack_Entry)
    (n : Int) (k : Err) (sAtFailure : List Stack_Entry)
    (h : rotate_entries interp s n = .error (k, sAtFailure)) :
    k = .shallowStack ∧ sAtFailure = s := by
  rw [rotate_entries] at h
  split_ifs at h
  all_goals
    first
      | exact Except.noConfusion h
      | (simp only [Except.error.injEq, Prod.mk.injEq] at h
         exact ⟨h.1.symm, h.2.symm⟩)

/-- Witness for claim C9 at the failing call of height 3, n = 5. -/
theorem claim_C9_witness : Err.shallowStack = Err.shallowStack ∧ ex321 = ex321 :=
  claim_C9_rotate_error_atomic exInterp ex321 5 .shallowStack ex321 (by rfl)

/-- Claim C3: for depth < 0, stack_entry resolves the index as
height(user stack of the interpreter context) + depth — the distinguished
currently active stack, not necessarily the argument stack — and returns
no entry when the adjusted index is still negative or when the walk down
the argument stack reaches the sentinel first. -/
theorem claim_C3_entry_negative_depth (interp : Interp)
    (s : List Stack_Entry) (d : Int) (hd : d < 0) :
    stack_entry interp s d =
      (if (stack_height interp.user_stack : Int) + d < 0 then none
       else s[((stack_height interp.user_stack : Int) + d).toNat]?) ∧
    ((stack_height interp.user_stack : Int) + d < 0 →
      stack_entry interp s d = none) ∧
    (0 ≤ (stack_height interp.user_stack : Int) + d →
      (s.length : Int) ≤ (stack_height interp.user_stack : Int) + d →
      stack_entry interp s d = none) := by
  have hresolve : stack_entry interp s d =
      (if (stack_height interp.user_stack : Int) + d < 0 then none
       else s[((stack_height interp.user_stack : Int) + d).toNat]?) := by
    rw [stack_entry, if_pos hd]
    by_cases hneg : (stack_height interp.user_stack : Int) + d < 0
    · rw [if_pos hneg, if_pos hneg]
    · rw [if_neg hneg, if_neg hneg, stack_walk_eq_getElem?]
  refine ⟨hresolve, ?_, ?_⟩
  · intro hneg
    rw [hresolve, if_pos hneg]
  · intro hpos hlen
    rw [hresolve, if_neg (by omega)]
    exact List.getElem?_eq_none (by omega)

/-- Witness for claim C3: the active user stack has height 3 while the
argument stack has height 1, so depth −1 resolves to index 2 and the walk
hits the sentinel (no entry) — the argument stack alone would have
resolved it. -/
theorem claim_C3_witness :
    (stack_entry ⟨ex321⟩ [exInt 9] (-1) =
      (if (stack_height ex321 : Int) + (-1) < 0 then none
       else [exInt 9][((stack_height ex321 : Int) + (-1)).toNat]?)) ∧
    ((stack_height ex321 : Int) + (-1) < 0 →
      stack_entry ⟨ex321⟩ [exInt 9] (-1) = none) ∧
    (0 ≤ (stack_height ex321 : Int) + (-1) →
      (([exInt 9] : List Stack_Entry).length : Int) ≤
        (stack_height ex321 : Int) + (-1) →
      stack_entry ⟨ex321⟩ [exInt 9] (-1) = none) :=
  claim_C3_entry_negative_depth ⟨ex321⟩ [exInt 9] (-1) (by decide)

theorem memberOf_some_eq (t : Stack_entry_type) (u v : UVal)
    (h : memberOf t u = some v) : v = u := by
  cases t <;> cases u <;> simp [memberOf] at h <;> exact h.symm

/-- Claim C6: stack_entry at depth 0 yields the most recently pushed entry,
at depth height−1 the oldest entry, and at depth height (or beyond) no
entry. -/
theorem claim_C6_entry_depth_bounds (interp : Interp) (s : List Stack_Entry) :
    (∀ (s₀ : List Stack_Entry) (thing : UVal) (t : Stack_entry_type)
      (c : Option Nat), stack_push s₀ thing t c = some s →
        stack_entry interp s 0 = some ⟨t, thing, c⟩) ∧
    (s ≠ [] → stack_entry interp s ((stack_height s : Int) - 1) = s.getLast?) ∧
    (∀ d : Int, (stack_height s : Int) ≤ d → stack_entry interp s d = none) := by
  refine ⟨?_, ?_, ?_⟩
  · intro s₀ thing t c hpush
    rw [stack_push] at hpush
    cases hm : memberOf t thing with
    | none => rw [hm] at hpush; exact Option.noConfusion hpush
    | some v =>
      rw [hm] at hpush
      have hv : v = thing := memberOf_some_eq t thing v hm
      have hs : s = ⟨t, v, c⟩ :: s₀ := (Option.some.injEq _ _).mp hpush |>.symm
      have h0 := stack_entry_ofNat interp s 0
      simp only [Nat.cast_zero] at h0
      rw [h0, hs, hv]
      simp
  · intro hne
    rw [stack_height_eq_length]
    have hlen : 1 ≤ s.length := List.length_pos.mpr hne
    have hcast : ((s.length : Int) - 1) = ((s.length - 1 : Nat) : Int) := by omega
    rw [hcast, stack_entry_ofNat interp s (s.length - 1)]
    exact (List.getLast?_eq_getElem? s).symm
  · intro d hd
    rw [stack_height_eq_length] at hd
    rw [stack_entry, if_neg (by omega), stack_walk_eq_getElem?]
    exact List.getElem?_eq_none (by omega)

/-- Witness for claim C6 on the stack [3,2,1]: depth 0 is the entry pushed
last, depth 2 the oldest, depth 3 none. -/
theorem claim_C6_witness :
    stack_entry exInterp ex321 0 = some ⟨.entryInt, .uint 3, none⟩ ∧
    stack_entry exInterp ex321 ((stack_height ex321 : Int) - 1) =
      ex321.getLast? ∧
    stack_entry exInterp ex321 3 = none :=
  ⟨(claim_C6_entry_depth_bounds exInterp ex321).1 [exInt 2, exInt 1]
      (.uint 3) .entryInt none (by rfl),
   (claim_C6_entry_depth_bounds exInterp ex321).2.1 (by decide),
   (claim_C6_entry_depth_bounds exInterp ex321).2.2 3 (by decide)⟩

/-- Claim C4: whenever the detached top entry carries a cleanup and the
type check succeeds, stack_pop runs that cleanup exactly once, passing it
the detached entry, before any value is surfaced — also when the
destination is absent; and push followed by an immediate pop of the
matching type surfaces exactly the pushed value. -/
theorem claim_C4_pop_cleanup_once :
    (∀ (e : Stack_Entry) (rest : List Stack_Entry) (dest : Bool)
      (type : Option Stack_entry_type) (c : Nat),
      e.cleanup = some c →
      (∀ t, type = some t → t = e.entry_type) →
      popCleanups (e :: rest) dest type = [(c, e)]) ∧
    (∀ (s : List Stack_Entry) (thing : UVal) (t : Stack_entry_type)
      (c : Option Nat) (s1 : List Stack_Entry),
      stack_push s thing t c = some s1 →
      stack_pop s1 true (some t) =
        some (.ok s (popCleanups s1 true (some t)) (some (some thing)))) := by
  constructor
  · intro e rest dest type c hc htype
    cases type with
    | none =>
      cases dest <;>
        simp [popCleanups, stack_pop, stack_prepare_pop, hc, PopOutcome.cleanups]
    | some t =>
      have ht : t = e.entry_type := htype t rfl
      cases dest <;>
        simp [popCleanups, stack_pop, stack_prepare_pop, ht, hc,
          PopOutcome.cleanups]
  · intro s thing t c s1 hpush
    rw [stack_push] at hpush
    cases hm : memberOf t thing with
    | none => rw [hm] at hpush; exact Option.noConfusion hpush
    | some v =>
      rw [hm] at hpush
      have hv : v = thing := memberOf_some_eq t thing v hm
      have hs : s1 = ⟨t, v, c⟩ :: s := (Option.some.injEq _ _).mp hpush |>.symm
      subst hs
      subst hv
      simp [stack_pop, stack_prepare_pop, popCleanups, PopOutcome.cleanups, hm]

/-- Witness for claim C4: a pop with an attached cleanup (id 5) and an
absent destination still runs the cleanup exactly once; push of Int 7 then
pop surfaces Int 7. -/
theorem claim_C4_witness :
    popCleanups (⟨.entryInt, .uint 7, some 5⟩ :: []) false none =
      [(5, ⟨.entryInt, .uint 7, some 5⟩)] ∧
    stack_pop (⟨.entryInt, .uint 7, some 5⟩ :: []) true (some .entryInt) =
      some (.ok [] (popCleanups (⟨.entryInt, .uint 7, some 5⟩ :: []) true
        (some .entryInt)) (some (some (.uint 7)))) :=
  ⟨claim_C4_pop_cleanup_once.1 ⟨.entryInt, .uint 7, some 5⟩ [] false none 5
      (by rfl) (by intro t ht; exact Option.noConfusion ht),
   claim_C4_pop_cleanup_once.2 [] (.uint 7) .entryInt (some 5)
      (⟨.entryInt, .uint 7, some 5⟩ :: []) (by rfl)⟩

/-- Claim C5: a stack_pop on a nonempty stack raises BadStackType exactly
when the requested type is nonzero and differs from the detached top tag,
or when it is the wildcard 0 with a destination present; the wildcard with
an absent destination succeeds (discarding the value). -/
theorem claim_C5_pop_bad_type_iff (e : Stack_Entry) (rest : List Stack_Entry)
    (dest : Bool) (type : Option Stack_entry_type) :
    (popErrKind (stack_pop (e :: rest) dest type) = some .badStackType ↔
      ((type ≠ none ∧ type ≠ some e.entry_type) ∨
        (type = none ∧ dest = true))) ∧
    (type = none → dest = false →
      stack_pop (e :: rest) dest type =
        some (.ok rest (popCleanups (e :: rest) dest type) none)) := by
  constructor
  · cases type with
    | none =>
      cases dest <;>
        simp [popErrKind, stack_pop, stack_prepare_pop]
    | some t =>
      by_cases ht : t = e.entry_type
      · cases dest <;>
          simp [popErrKind, stack_pop, stack_prepare_pop, ht]
      · cases dest <;>
          simp [popErrKind, stack_pop, stack_prepare_pop, ht]
  · intro htype hdest
    subst htype
    subst hdest
    simp [stack_pop, stack_prepare_pop, popCleanups, PopOutcome.cleanups]

/-- Witness for claim C5 at scenario 6 (top entry Float, requested Int,
destination present: BadStackType) and at wildcard with absent destination
(success). -/
theorem claim_C5_witness :
    ((popErrKind (stack_pop (exFloat :: []) true (some .entryInt)) =
        some .badStackType ↔
      ((some Stack_entry_type.entryInt ≠ (none : Option Stack_entry_type) ∧
        some Stack_entry_type.entryInt ≠ some exFloat.entry_type) ∨
        ((some Stack_entry_type.entryInt : Option Stack_entry_type) = none ∧
          true = true)))) ∧
    stack_pop (exFloat :: []) false none =
      some (.ok [] (popCleanups (exFloat :: []) false none) none) :=
  ⟨(claim_C5_pop_bad_type_iff exFloat [] true (some .entryInt)).1,
   (claim_C5_pop_bad_type_iff exFloat [] false none).2 (by rfl) (by rfl)⟩

/-- Claim C10: when stack_pop raises BadStackType because the nonzero
requested type differs from the top tag, the top entry is already detached
at the moment of failure — the stack at failure is the tail, one entry
shorter — and no cleanup has been invoked. -/
theorem claim_C10_pop_error_not_atomic (e : Stack_Entry)
    (rest : List Stack_Entry) (dest : Bool) (t : Stack_entry_type)
    (ht : t ≠ e.entry_type) :
    stack_pop (e :: rest) dest (some t) =
      some (.err .badStackType rest []) ∧
    rest.length = (e :: rest).length - 1 := by
  refine ⟨?_, by simp⟩
  simp [stack_pop, stack_prepare_pop, ht]

/-- Witness for claim C10: popping a Float-tagged top while requesting Int
fails after detaching, with no cleanup run. -/
theorem claim_C10_witness :
    stack_pop (exFloat :: [exInt 1]) true (some .entryInt) =
      some (.err .badStackType [exInt 1] []) ∧
    ([exInt 1] : List Stack_Entry).length =
      (exFloat :: [exInt 1]).length - 1 :=
  claim_C10_pop_error_not_atomic exFloat [exInt 1] true .entryInt (by decide)

/-! Helper lemmas for mark_stack. -/

theorem mark_stack_ne_nil (s : List Stack_Entry) (pos : Nat) :
    mark_stack s pos ≠ [] := by
  cases s <;> simp [mark_stack]

theorem mark_stack_chunk_mem (s : List Stack_Entry) (pos i : Nat)
    (h1 : pos ≤ i) (h2 : i ≤ pos + s.length) :
    MarkEvent.chunkLive i ∈ mark_stack s pos := by
  induction s generalizing pos with
  | nil =>
    have hip : i = pos := by simp at h2; omega
    simp [mark_stack, hip]
  | cons e rest ih =>
    by_cases hip : i = pos
    · simp [mark_stack, hip]
    · have hm := ih (pos + 1) (by omega) (by simp at h2 ⊢; omega)
      simp only [mark_stack, List.mem_cons, List.mem_append]
      exact Or.inr (Or.inr hm)

theorem mark_stack_chunk_count (s : List Stack_Entry) (pos q : Nat) :
    (mark_stack s pos).count (MarkEvent.chunkLive q) =
      if pos ≤ q ∧ q ≤ pos + s.length then 1 else 0 := by
  induction s generalizing pos with
  | nil =>
    by_cases hq : q = pos
    · rw [if_pos (by simp; omega)]
      simp [mark_stack, hq]
    · rw [if_neg (by simp; omega)]
      simp [mark_stack, List.count_cons]
      omega
  | cons e rest ih =>
    have hmatch : (match entryRef e with
        | some p => [MarkEvent.objLive p]
        | none => []).count (MarkEvent.chunkLive q) = 0 := by
      cases entryRef e <;> simp [List.count_cons]
    rw [mark_stack, List.count_cons, List.count_append, hmatch, ih (pos + 1)]
    simp only [beq_iff_eq, MarkEvent.chunkLive.injEq, List.length_cons]
    split_ifs <;> omega

theorem mark_stack_getLast? (s : List Stack_Entry) (pos : Nat) :
    (mark_stack s pos).getLast? = some (.chunkLive (pos + s.length)) := by
  induction s generalizing pos with
  | nil => simp [mark_stack]
  | cons e rest ih =>
    rw [mark_stack, ← List.singleton_append]
    rw [List.getLast?_append_of_ne_nil _
      (fun hc => mark_stack_ne_nil rest (pos + 1) (List.append_eq_nil.mp hc).2)]
    rw [List.getLast?_append_of_ne_nil _ (mark_stack_ne_nil rest (pos + 1))]
    rw [ih (pos + 1)]
    simp only [Option.some.injEq, MarkEvent.chunkLive.injEq, List.length_cons]
    omega

theorem mark_stack_objLive_mem (s : List Stack_Entry) (pos p : Nat) :
    MarkEvent.objLive p ∈ mark_stack s pos ↔
      ∃ i : Nat, ∃ e : Stack_Entry, s[i]? = some e ∧ entryRef e = some p := by
  induction s generalizing pos with
  | nil => simp [mark_stack]
  | cons e rest ih =>
    simp only [mark_stack, List.mem_cons, List.mem_append]
    constructor
    · rintro (h | h | h)
      · exact absurd h (by simp)
      · cases he : entryRef e with
        | none => rw [he] at h; simp at h
        | some q =>
          rw [he] at h
          simp at h
          exact ⟨0, e, by simp, by rw [he, h]⟩
      · obtain ⟨i, e1, hi, hr⟩ := (ih (pos + 1)).mp h
        exact ⟨i + 1, e1, by simpa using hi, hr⟩
    · rintro ⟨i, e1, hi, hr⟩
      cases i with
      | zero =>
        have he1 : e = e1 := by simpa using hi
        rw [← he1] at hr
        refine Or.inr (Or.inl ?_)
        rw [hr]
        simp
      | succ j =>
        exact Or.inr (Or.inr ((ih (pos + 1)).mpr ⟨j, e1, by simpa using hi, hr⟩))

/-- Claim C8: mark_stack reports every chunk from the top down to and
including the base sentinel as live, visits the base exactly once and
stops there (the base report is the last one), and additionally reports
exactly the non-null PMC/String payloads of the visited non-sentinel
chunks, and no other payloads. -/
theorem claim_C8_mark_live_reports (s : List Stack_Entry) :
    (∀ i : Nat, i ≤ stack_height s → MarkEvent.chunkLive i ∈ mark_stack s 0) ∧
    ((mark_stack s 0).count (MarkEvent.chunkLive (stack_height s)) = 1 ∧
      (mark_stack s 0).getLast? = some (.chunkLive (stack_height s))) ∧
    (∀ p : Nat, MarkEvent.objLive p ∈ mark_stack s 0 ↔
      ∃ i : Nat, ∃ e : Stack_Entry, s[i]? = some e ∧ entryRef e = some p) := by
  rw [stack_height_eq_length]
  refine ⟨?_, ⟨?_, ?_⟩, ?_⟩
  · intro i hi
    exact mark_stack_chunk_mem s 0 i (by omega) (by omega)
  · rw [mark_stack_chunk_count s 0 s.length, if_pos (by omega)]
  · have := mark_stack_getLast? s 0
    simpa using this
  · intro p
    exact mark_stack_objLive_mem s 0 p

/-- Witness for claim C8 on a two-entry stack holding a non-null PMC and a
NULL String: the base chunk (depth 2) is reported, once and last, and the
PMC object 11 is the only payload reported. -/
theorem claim_C8_witness :
    MarkEvent.chunkLive 2 ∈ mark_stack exMarkStack 0 ∧
    ((mark_stack exMarkStack 0).count
        (MarkEvent.chunkLive (stack_height exMarkStack)) = 1 ∧
      (mark_stack exMarkStack 0).getLast? =
        some (.chunkLive (stack_height exMarkStack))) ∧
    (MarkEvent.objLive 11 ∈ mark_stack exMarkStack 0 ↔
      ∃ i : Nat, ∃ e : Stack_Entry,
        exMarkStack[i]? = some e ∧ entryRef e = some 11) :=
  ⟨(claim_C8_mark_live_reports exMarkStack).1 2 (by decide),
   (claim_C8_mark_live_reports exMarkStack).2.1,
   (claim_C8_mark_live_reports exMarkStack).2.2 11⟩

end ParrotStacks
